import Mathlib

/-!
Shallow embedding of the framing / decoding layer of `opendaq/daq.py`
(checksum, command transceiver, streaming frame decoder) together with
theorems settling the specification claims about it.

Conventions of the embedding:
* a serial byte source is a `List Nat` of the bytes that the transport
  will deliver, in order; `ser.read(1)` on an exhausted list models the
  read timing out and returning the empty string;
* Python exceptions (`struct.error` on a failed `pack`/`unpack`,
  `IndexError`, `LengthError`, `CRCError`) are modelled with
  `Option`/`Except`: a raised exception is `none` / `Except.error`;
* Python integers are `Int` (the lists that callers pass to
  `get_stream` hold arbitrary Python ints), raw bytes are `Nat`.
-/

/-- Errors raised by the command/response path of `daq.py`:
`LengthError`, `CRCError`, and Python's `struct.error`. -/
inductive PyError where
  | lengthError
  | crcError
  | structError
deriving DecidableEq

/-- `struct.unpack('>b', ·)`: a raw byte reinterpreted as a signed
8-bit value. -/
def signedByte (b : Nat) : Int :=
  if b < 128 then (b : Int) else (b : Int) - 256

/-- `struct.unpack('>h', ·)`: two's-complement reinterpretation of a
16-bit big-endian value. -/
def signed16 (v : Nat) : Int :=
  if v < 32768 then (v : Int) else (v : Int) - 65536

/-- `struct.unpack('>i', ·)`: two's-complement reinterpretation of a
32-bit big-endian value. -/
def signed32 (v : Nat) : Int :=
  if v < 2147483648 then (v : Int) else (v : Int) - 4294967296

/-- `crc(data)` from `daq.py`: sums the byte values and packs the sum
with `struct.pack('>H', s)`.  `struct.pack` raises `struct.error`
(modelled as `none`) when the sum does not fit in 16 bits; it does not
wrap around. -/
def crc (data : List Nat) : Option (List Nat) :=
  let s := data.sum
  if s ≤ 65535 then some [s / 256, s % 256] else none

/-- `check_crc(data)` from `daq.py`: split off the 2-byte checksum
prefix, recompute the checksum of the remainder and compare. -/
def check_crc (data : List Nat) : Except PyError (List Nat) :=
  let csum := data.take 2
  let payload := data.drop 2
  match crc payload with
  | none => Except.error PyError.structError
  | some c => if csum ≠ c then Except.error PyError.crcError else Except.ok payload

/-- `check_stream_crc(head, data)` from `daq.py`: the 16-bit value
formed from the first two header bytes compared against the sum of
`head[2:] + data`. -/
def check_stream_crc (head : List Nat) (data : List Int) : Bool :=
  ((head.getD 0 0 * 256 + head.getD 1 0 : Nat) : Int) ==
    ((head.drop 2).map (fun n => (n : Int)) ++ data).sum

/-- One typed slot of a `struct` format string as used by
`send_command` (`b`, `B`, `h`, `H`, `i`/`l`, `I`/`L`, big-endian). -/
inductive FieldType where
  | i8
  | u8
  | i16
  | u16
  | i32
  | u32
deriving DecidableEq

/-- Width in bytes of one field (standard big-endian sizes). -/
def FieldType.size : FieldType → Nat
  | .i8 => 1
  | .u8 => 1
  | .i16 => 2
  | .u16 => 2
  | .i32 => 4
  | .u32 => 4

/-- `struct.calcsize` for a big-endian format: the sum of the field
widths. -/
def calcsize : List FieldType → Nat
  | [] => 0
  | f :: fs => f.size + calcsize fs

/-- Decode one big-endian field from the front of a byte list. -/
def decodeField : FieldType → List Nat → Option (Int × List Nat)
  | .i8, b :: rest => some (signedByte b, rest)
  | .u8, b :: rest => some ((b : Int), rest)
  | .i16, b0 :: b1 :: rest => some (signed16 (b0 * 256 + b1), rest)
  | .u16, b0 :: b1 :: rest => some (((b0 * 256 + b1 : Nat) : Int), rest)
  | .i32, b0 :: b1 :: b2 :: b3 :: rest =>
      some (signed32 (((b0 * 256 + b1) * 256 + b2) * 256 + b3), rest)
  | .u32, b0 :: b1 :: b2 :: b3 :: rest =>
      some (((((b0 * 256 + b1) * 256 + b2) * 256 + b3 : Nat) : Int), rest)
  | _, _ => none

/-- `struct.unpack(fmt, bs)`: decode every field; the byte list must be
consumed exactly. -/
def unpackFields : List FieldType → List Nat → Option (List Int)
  | [], [] => some []
  | [], _ :: _ => none
  | f :: fs, bs =>
    match decodeField f bs with
    | none => none
    | some (v, rest) =>
      match unpackFields fs rest with
      | none => none
      | some vs => some (v :: vs)

/-- `DAQ.send_command(cmd, ret_fmt)` from `daq.py`.  `ret_fmt` is the
response field descriptor; the response format is `'>bb' + ret_fmt`
(command echo and declared length are signed bytes).  `input` is the
byte stream offered by the transport; `ser.read(n)` returns at most
`n` bytes of it. -/
def send_command (cmd : List Nat) (ret_fmt : List FieldType) (input : List Nat) :
    Except PyError (List Int) :=
  let fmt := FieldType.i8 :: FieldType.i8 :: ret_fmt
  let ret_len := 2 + calcsize fmt
  match crc cmd with
  | none => Except.error PyError.structError
  | some _ =>
    let ret := input.take ret_len
    if ret.length ≠ ret_len then Except.error PyError.lengthError
    else
      match check_crc ret with
      | Except.error e => Except.error e
      | Except.ok payload =>
        match unpackFields fmt payload with
        | none => Except.error PyError.structError
        | some data =>
          if data.getD 1 0 ≠ (ret_len : Int) - 4 then Except.error PyError.lengthError
          else Except.ok (data.drop 2)

/-- One escape-unstuffed read of the stream decoder: read a raw byte;
if it is the escape marker `0x7D`, read one more raw byte and recover
the value with `| 0x20`.  `none` models `struct.unpack` raising on an
empty read. -/
def unescapeRead : List Nat → Option (Nat × List Nat)
  | [] => none
  | c :: rest =>
    if c = 0x7D then
      match rest with
      | [] => none
      | d :: rest' => some (d ||| 0x20, rest')
    else some (c, rest)

/-- Perform `n` consecutive escape-unstuffed reads, returning the
recovered values and the remaining raw bytes. -/
def unescapeTake : Nat → List Nat → Option (List Nat × List Nat)
  | 0, bs => some ([], bs)
  | n + 1, bs =>
    match unescapeRead bs with
    | none => none
    | some (v, rest) =>
      match unescapeTake n rest with
      | none => none
      | some (vs, rest') => some (v :: vs, rest')

/-- Modelled from the spec: the device-side escape encoding is not part
of `daq.py` (it runs in the firmware); per the spec's escape rule, a
byte equal to the delimiter `0x7E` or the escape marker `0x7D` is sent
as `0x7D` followed by the byte XOR `0x20`. -/
def escape : List Nat → List Nat
  | [] => []
  | b :: rest =>
    if b = 0x7E ∨ b = 0x7D then 0x7D :: (b ^^^ 0x20) :: escape rest
    else b :: escape rest

/-- The decoder's unstuffing applied to a whole byte list (iterated
`unescapeRead`; a trailing lone escape marker reads nothing). -/
def unescape : List Nat → List Nat
  | [] => []
  | b :: rest =>
    if b = 0x7D then
      match rest with
      | [] => []
      | d :: rest' => (d ||| 0x20) :: unescape rest'
    else b :: unescape rest

/-- Outcome of the header-accumulation loop of `DAQ.get_stream`:
either the stop short-circuit fired (carrying the channel byte and the
unread remainder) or a full 8-byte header was collected. -/
inductive HeadStep where
  | stop (ch : Nat) (rest : List Nat)
  | full (header : List Nat) (rest : List Nat)
deriving DecidableEq

/-- Header loop of `DAQ.get_stream`: while fewer than 8 header bytes
are collected, do one escape-unstuffed read and append it; as soon as
the header has exactly 3 bytes and its third byte is `80`, read 2 raw
bytes and short-circuit with the second of them.  `fuel` is the number
of appends still allowed (started at 8). -/
def headerLoop : Nat → List Nat → List Nat → Option HeadStep
  | 0, header, bs => some (HeadStep.full header bs)
  | fuel + 1, header, bs =>
    match unescapeRead bs with
    | none => none
    | some (v, rest) =>
      let header' := header ++ [v]
      if header'.length = 3 ∧ header'.getD 2 0 = 80 then
        match rest with
        | _ :: ch :: rest' => some (HeadStep.stop ch rest')
        | _ => none
      else headerLoop fuel header' rest

/-- Payload loop of `DAQ.get_stream`: `while len(data) < dataLength`,
do one escape-unstuffed read and append it to the caller's `data`
list.  Each iteration grows `data` by one, so `fuel = dataLength`
always suffices. -/
def payloadLoop : Nat → Nat → List Int → List Nat → Option (List Int × List Nat)
  | 0, dataLength, data, bs =>
    if data.length < dataLength then none else some (data, bs)
  | fuel + 1, dataLength, data, bs =>
    if data.length < dataLength then
      match unescapeRead bs with
      | none => none
      | some (v, rest) => payloadLoop fuel dataLength (data ++ [(v : Int)]) rest
    else some (data, bs)

/-- Sample-decoding loop of `DAQ.get_stream`: for each index `i` of
`range(0, dataLength, 2)`, read `data[i]`, `data[i+1]`, form
`(data[i] << 8) | data[i+1]`, subtract 65536 when the value is at
least 32768, and append the result to `data`.  `none` models an
`IndexError`. -/
def decodeLoop : List Nat → List Int → Option (List Int)
  | [], data => some data
  | i :: idxs, data =>
    match data[i]?, data[i + 1]? with
    | some d0, some d1 =>
      let value := Int.lor (d0 * 256) d1
      decodeLoop idxs (data ++ [if 32768 ≤ value then value - 65536 else value])
    | _, _ => none

/-- Result of one `DAQ.get_stream` call: the return code, the caller's
`data` and `channel` lists after the call, and the bytes the transport
still holds. -/
structure GSResult where
  code : Nat
  data : List Int
  channel : List Int
  rest : List Nat
deriving DecidableEq

/-- `DAQ.get_stream(data, channel)` from `daq.py`, decoding against
the byte source `bs`.  Note that the payload loop fills the *caller's*
`data` list up to `header[3] - 4` and the sample loop indexes that
same list from position 0. -/
def get_stream (bs : List Nat) (data channel : List Int) : Option GSResult :=
  match bs with
  | [] => some ⟨0, data, channel, []⟩
  | b :: rest =>
    if signedByte b ≠ 0x7E then
      some ⟨2, data ++ [signedByte b], channel, rest⟩
    else
      match headerLoop 8 [] rest with
      | none => none
      | some (HeadStep.stop ch rest1) =>
          some ⟨3, data, channel ++ [(ch : Int) - 1], rest1⟩
      | some (HeadStep.full header rest1) =>
        let dataLength := header.getD 3 0 - 4
        match payloadLoop dataLength dataLength data rest1 with
        | none => none
        | some (data1, rest2) =>
          match decodeLoop (List.range' 0 ((dataLength + 1) / 2) 2) data1 with
          | none => none
          | some data2 =>
            let _chk := check_stream_crc header data2
            some ⟨1, data2, channel ++ [(header.getD 4 0 : Int) - 1], rest2⟩

/-- Drive `get_stream` `n` times against the byte source, threading the
caller's lists through and recording the return code of every call,
as the polling loop of the stream session does. -/
def iterate_stream : Nat → List Nat → List Int → List Int →
    Option (List Nat × List Int × List Int × List Nat)
  | 0, bs, d, c => some ([], d, c, bs)
  | n + 1, bs, d, c =>
    match get_stream bs d c with
    | none => none
    | some r =>
      match iterate_stream n r.rest r.data r.channel with
      | none => none
      | some (codes, d', c', rest') => some (r.code :: codes, d', c', rest')

/-- A 128-byte response field descriptor (128 unsigned bytes). -/
def fmt128 : List FieldType := List.replicate 128 FieldType.u8

/-- A well-checksummed response for `fmt128` whose declared-length
byte is `128`: checksum `[0, 128]`, echo `0`, declared length `128`,
then 128 zero field bytes. -/
def resp128 : List Nat := [0, 128, 0, 128] ++ List.replicate 128 0

/-- A 128-byte response field descriptor (64 unsigned 16-bit words). -/
def fmt64 : List FieldType := List.replicate 64 FieldType.u16

/-- A well-checksummed response for `fmt64` whose declared-length byte
is `128` and whose echo byte is `1`: checksum `[0, 129]`, echo `1`,
declared length `128`, then 128 zero field bytes. -/
def resp64 : List Nat := [0, 129, 1, 128] ++ List.replicate 128 0

/-! ### Helper lemmas about the decoder loops -/

/-- A byte other than the escape marker is passed through by an
escape-unstuffed read. -/
theorem unescapeRead_cons (b : Nat) (bs : List Nat) (hb : b ≠ 0x7D) :
    unescapeRead (b :: bs) = some (b, bs) := by
  simp [unescapeRead, hb]

/-- One non-short-circuiting step of the header loop appends the
recovered byte to the header buffer. -/
theorem headerLoop_read (fuel : Nat) (header bs : List Nat) (v : Nat) (rest : List Nat)
    (hread : unescapeRead bs = some (v, rest))
    (hcond : ¬((header ++ [v]).length = 3 ∧ (header ++ [v]).getD 2 0 = 80)) :
    headerLoop (fuel + 1) header bs = headerLoop fuel (header ++ [v]) rest := by
  simp only [headerLoop, hread, hcond]
  simp [hcond]

/-- When the header buffer reaches length 3 with third byte `80`, the
header loop reads two raw bytes and short-circuits with the second. -/
theorem headerLoop_stop (fuel : Nat) (header bs : List Nat) (v x1 x2 : Nat) (rest' : List Nat)
    (hread : unescapeRead bs = some (v, x1 :: x2 :: rest'))
    (hcond : (header ++ [v]).length = 3 ∧ (header ++ [v]).getD 2 0 = 80) :
    headerLoop (fuel + 1) header bs = some (HeadStep.stop x2 rest') := by
  simp only [headerLoop, hread]
  rw [if_pos hcond]

/-- Entering `get_stream` on the frame delimiter runs the header,
payload and sample loops. -/
theorem get_stream_frame (t : List Nat) (d c : List Int) :
    get_stream (0x7E :: t) d c =
      match headerLoop 8 [] t with
      | none => none
      | some (HeadStep.stop ch rest1) => some ⟨3, d, c ++ [(ch : Int) - 1], rest1⟩
      | some (HeadStep.full header rest1) =>
        let dataLength := header.getD 3 0 - 4
        match payloadLoop dataLength dataLength d rest1 with
        | none => none
        | some (data1, rest2) =>
          match decodeLoop (List.range' 0 ((dataLength + 1) / 2) 2) data1 with
          | none => none
          | some data2 =>
            some ⟨1, data2, c ++ [(header.getD 4 0 : Int) - 1], rest2⟩ := rfl

/-- With enough fuel, the payload loop performs exactly
`dataLength - data.length` escape-unstuffed reads and appends them to
the caller's list. -/
theorem payloadLoop_take (n : Nat) :
    ∀ (fuel dataLength : Nat) (data : List Int) (bs : List Nat),
      dataLength - data.length = n → n ≤ fuel →
      payloadLoop fuel dataLength data bs =
        match unescapeTake n bs with
        | none => none
        | some (vs, rest) => some (data ++ vs.map (fun m : Nat => (m : Int)), rest) := by
  induction n with
  | zero =>
    intro fuel dataLength data bs hn _
    have h : ¬ data.length < dataLength := by omega
    cases fuel <;> simp [payloadLoop, h, unescapeTake]
  | succ n ih =>
    intro fuel dataLength data bs hn hfuel
    obtain ⟨f, rfl⟩ : ∃ f, fuel = f + 1 := ⟨fuel - 1, by omega⟩
    have hd : data.length < dataLength := by omega
    simp only [payloadLoop, if_pos hd]
    cases hbs : unescapeRead bs with
    | none => simp [unescapeTake, hbs]
    | some pr =>
      obtain ⟨v, rest⟩ := pr
      dsimp only
      rw [ih f dataLength (data ++ [(v : Int)]) rest (by simp; omega) (by omega)]
      simp only [unescapeTake, hbs]
      cases unescapeTake n rest with
      | none => rfl
      | some pr2 =>
        obtain ⟨vs, rest'⟩ := pr2
        simp

/-! ### Helper lemmas about the command/response path -/

/-- `crc` succeeds exactly on sums that fit in 16 bits, producing the
big-endian byte pair of the sum. -/
theorem crc_eq_some (d : List Nat) (h : d.sum ≤ 65535) :
    crc d = some [d.sum / 256, d.sum % 256] := by
  simp [crc, h]

/-- A successful `check_crc` returns the input minus its 2-byte
checksum prefix. -/
theorem check_crc_ok_drop {r p : List Nat} (h : check_crc r = Except.ok p) :
    p = r.drop 2 := by
  simp only [check_crc] at h
  cases hc : crc (r.drop 2) with
  | none => simp only [hc] at h; exact Except.noConfusion h
  | some c =>
    simp only [hc] at h
    by_cases he : r.take 2 ≠ c
    · rw [if_pos he] at h; exact Except.noConfusion h
    · rw [if_neg he] at h; injection h with h; exact h.symm

/-- `check_crc` only raises `CRCError` or `struct.error`, never
`LengthError`. -/
theorem check_crc_ne_lengthError (r : List Nat) :
    check_crc r ≠ Except.error PyError.lengthError := by
  simp only [check_crc]
  cases crc (r.drop 2) with
  | none => intro h; injection h with h; exact PyError.noConfusion h
  | some c =>
    dsimp only
    by_cases he : r.take 2 ≠ c
    · rw [if_pos he]; intro h; injection h with h; exact PyError.noConfusion h
    · rw [if_neg he]; exact Except.noConfusion

/-- A field whose width fits in the byte list always decodes, consuming
its width. -/
theorem decodeField_total (f : FieldType) (bs : List Nat) (h : f.size ≤ bs.length) :
    ∃ v rest, decodeField f bs = some (v, rest) ∧ rest.length + f.size = bs.length := by
  cases f with
  | i8 =>
    cases bs with
    | nil => simp [FieldType.size] at h
    | cons b rest => exact ⟨signedByte b, rest, rfl, by simp [FieldType.size]⟩
  | u8 =>
    cases bs with
    | nil => simp [FieldType.size] at h
    | cons b rest => exact ⟨(b : Int), rest, rfl, by simp [FieldType.size]⟩
  | i16 =>
    match bs, h with
    | b0 :: b1 :: rest, _ =>
      exact ⟨signed16 (b0 * 256 + b1), rest, rfl,
        by simp only [FieldType.size, List.length_cons]⟩
  | u16 =>
    match bs, h with
    | b0 :: b1 :: rest, _ =>
      exact ⟨((b0 * 256 + b1 : Nat) : Int), rest, rfl,
        by simp only [FieldType.size, List.length_cons]⟩
  | i32 =>
    match bs, h with
    | b0 :: b1 :: b2 :: b3 :: rest, _ =>
      exact ⟨signed32 (((b0 * 256 + b1) * 256 + b2) * 256 + b3), rest, rfl,
        by simp only [FieldType.size, List.length_cons]⟩
  | u32 =>
    match bs, h with
    | b0 :: b1 :: b2 :: b3 :: rest, _ =>
      exact ⟨(((((b0 * 256 + b1) * 256 + b2) * 256 + b3 : Nat)) : Int), rest, rfl,
        by simp only [FieldType.size, List.length_cons]⟩

/-- `struct.unpack` succeeds whenever the byte list has exactly the
format's size. -/
theorem unpackFields_total (fmt : List FieldType) :
    ∀ bs : List Nat, bs.length = calcsize fmt → ∃ vs, unpackFields fmt bs = some vs := by
  induction fmt with
  | nil =>
    intro bs h
    cases bs with
    | nil => exact ⟨[], rfl⟩
    | cons b r => simp [calcsize] at h
  | cons f fs ih =>
    intro bs h
    simp only [calcsize] at h
    have hsz : f.size ≤ bs.length := by omega
    obtain ⟨v, rest, hdf, hlen⟩ := decodeField_total f bs hsz
    obtain ⟨vs, hu⟩ := ih rest (by omega)
    exact ⟨v :: vs, by simp [unpackFields, hdf, hu]⟩

/-- Unpacking `'>bb' ++ fmt` reads the first two bytes as signed
bytes. -/
theorem unpackFields_bb (fmt : List FieldType) (b0 b1 : Nat) (bs : List Nat) :
    unpackFields (FieldType.i8 :: FieldType.i8 :: fmt) (b0 :: b1 :: bs) =
      match unpackFields fmt bs with
      | none => none
      | some vs => some (signedByte b0 :: signedByte b1 :: vs) := by
  simp only [unpackFields, decodeField]
  cases unpackFields fmt bs <;> rfl

/-- `'>bb' ++ fmt` is two bytes wider than `fmt`. -/
theorem calcsize_bb (fmt : List FieldType) :
    calcsize (FieldType.i8 :: FieldType.i8 :: fmt) = 2 + calcsize fmt := by
  simp only [calcsize, FieldType.size]
  omega

/-- `send_command` in case the whole response arrived: the command's
own checksum packs, and the short-read check passes. -/
theorem send_command_unfold (cmd : List Nat) (ret_fmt : List FieldType) (input : List Nat)
    (hcmd : cmd.sum ≤ 65535) (hlen : 4 + calcsize ret_fmt ≤ input.length) :
    send_command cmd ret_fmt input =
      match check_crc (input.take (4 + calcsize ret_fmt)) with
      | Except.error e => Except.error e
      | Except.ok payload =>
        match unpackFields (FieldType.i8 :: FieldType.i8 :: ret_fmt) payload with
        | none => Except.error PyError.structError
        | some data =>
          if data.getD 1 0 ≠ (calcsize ret_fmt : Int) then Except.error PyError.lengthError
          else Except.ok (data.drop 2) := by
  have hcs : 2 + calcsize (FieldType.i8 :: FieldType.i8 :: ret_fmt) = 4 + calcsize ret_fmt := by
    rw [calcsize_bb]; omega
  have hint : ((4 + calcsize ret_fmt : Nat) : Int) - 4 = (calcsize ret_fmt : Int) := by
    push_cast; ring
  simp only [send_command, crc_eq_some cmd hcmd, hcs, hint]
  rw [if_neg (by simp only [List.length_take]; omega)]

/-- `send_command` on a short read: fewer than `expected_len` bytes
arrive, so `LengthError` is raised. -/
theorem send_command_short (cmd : List Nat) (ret_fmt : List FieldType) (input : List Nat)
    (hcmd : cmd.sum ≤ 65535) (hlen : input.length < 4 + calcsize ret_fmt) :
    send_command cmd ret_fmt input = Except.error PyError.lengthError := by
  have hcs : 2 + calcsize (FieldType.i8 :: FieldType.i8 :: ret_fmt) = 4 + calcsize ret_fmt := by
    rw [calcsize_bb]; omega
  simp only [send_command, crc_eq_some cmd hcmd, hcs]
  rw [if_pos (by simp only [List.length_take]; omega)]

/-- A byte other than the escape marker passes through `unescape`
unchanged. -/
theorem unescape_cons (b : Nat) (bs : List Nat) (hb : b ≠ 0x7D) :
    unescape (b :: bs) = b :: unescape bs := by
  cases bs <;> simp [unescape, hb]

/-! ### Claim theorems -/

/-- Claim C3: encoding any byte sequence with the spec's escape rule
(`0x7E`/`0x7D` become `0x7D`, byte XOR `0x20`) and decoding it with the
decoder's unescape step (`| 0x20` after a `0x7D`) recovers the
sequence exactly. -/
theorem escape_unescape_roundtrip (bs : List Nat) : unescape (escape bs) = bs := by
  induction bs with
  | nil => rfl
  | cons b rest ih =>
    by_cases hb : b = 0x7E ∨ b = 0x7D
    · have hor : (b ^^^ 0x20) ||| 0x20 = b := by
        rcases hb with h | h <;> subst h <;> decide
      rw [escape, if_pos hb]
      simp [unescape, ih, hor]
    · push_neg at hb
      rw [escape, if_neg (by tauto)]
      rw [unescape_cons b (escape rest) hb.2, ih]

/-- Claim C5: whenever the third collected (unescaped) header byte is
the stop marker `80`, `get_stream` reads exactly 2 further raw bytes,
appends the second of them minus 1 to the channel sequence and
returns `3`, leaving the data sequence and the remaining bytes (after
those 2) untouched. -/
theorem stop_short_circuit (t t1 t2 : List Nat) (h0 h1 x1 x2 : Nat) (rest : List Nat)
    (d c : List Int)
    (r0 : unescapeRead t = some (h0, t1))
    (r1 : unescapeRead t1 = some (h1, t2))
    (r2 : unescapeRead t2 = some (80, x1 :: x2 :: rest)) :
    get_stream (0x7E :: t) d c = some ⟨3, d, c ++ [(x2 : Int) - 1], rest⟩ := by
  have s1 : headerLoop 8 [] t = headerLoop 7 [h0] t1 :=
    headerLoop_read 7 [] t h0 t1 r0 (by simp)
  have s2 : headerLoop 7 [h0] t1 = headerLoop 6 [h0, h1] t2 :=
    headerLoop_read 6 [h0] t1 h1 t2 r1 (by simp)
  have s3 : headerLoop 6 [h0, h1] t2 = some (HeadStep.stop x2 rest) :=
    headerLoop_stop 5 [h0, h1] t2 80 x1 x2 rest r2 (by simp)
  rw [get_stream_frame, s1, s2, s3]

/-- Witness for C5: a concrete stop frame. -/
theorem stop_short_circuit_witness :
    get_stream [0x7E, 0, 0, 80, 9, 5] [] [] = some ⟨3, [], [4], []⟩ :=
  stop_short_circuit [0, 0, 80, 9, 5] [0, 80, 9, 5] [80, 9, 5] 0 0 9 5 [] [] [] rfl rfl rfl

/-- Claim C6 (amended): a first byte other than `0x7E` is appended to
the data sequence as a *signed* byte (`struct.unpack('>b', ·)`), the
channel sequence is unchanged, no further bytes are consumed, and the
return code is `2`. -/
theorem stray_byte_signed (b : Nat) (bs : List Nat) (d c : List Int)
    (hb : b < 256) (hne : b ≠ 0x7E) :
    get_stream (b :: bs) d c = some ⟨2, d ++ [signedByte b], c, bs⟩ := by
  have hsb : signedByte b ≠ 126 := by
    unfold signedByte; split <;> omega
  simp [get_stream, hsb]

/-- Witness for C6's amended theorem. -/
theorem stray_byte_signed_witness :
    get_stream [255] [] [] = some ⟨2, [signedByte 255], [], []⟩ :=
  stray_byte_signed 255 [] [] [] (by decide) (by decide)

/-- Counterexample to C6 as stated: the stray byte `255` is appended
as `-1`, not verbatim as `255`. -/
theorem stray_byte_cex :
    get_stream [255] [] [] = some ⟨2, [-1], [], []⟩ ∧
    ¬((-1 : Int) = 255) ∧ ¬((255 : Nat) = 0x7E) :=
  ⟨rfl, by decide, by decide⟩

/-- Claim C7: a fully collected frame is never rejected for a stream
checksum mismatch: even when `check_stream_crc` is `false`,
`get_stream` still appends the decoded samples and the channel id and
returns `1`. -/
theorem crc_advisory (t : List Nat) (d c : List Int) (header rest1 : List Nat)
    (data1 : List Int) (rest2 : List Nat) (data2 : List Int)
    (hh : headerLoop 8 [] t = some (HeadStep.full header rest1))
    (hp : payloadLoop (header.getD 3 0 - 4) (header.getD 3 0 - 4) d rest1 = some (data1, rest2))
    (hd : decodeLoop (List.range' 0 ((header.getD 3 0 - 4 + 1) / 2) 2) data1 = some data2)
    (_hcrc : check_stream_crc header data2 = false) :
    get_stream (0x7E :: t) d c = some ⟨1, data2, c ++ [(header.getD 4 0 : Int) - 1], rest2⟩ := by
  rw [get_stream_frame, hh]
  simp only [hp, hd]

/-- Witness for C7: a concrete frame whose stream checksum does not
match (`0 ≠ 269`) and is decoded all the same. -/
theorem crc_advisory_witness :
    get_stream [0x7E, 0, 0, 0, 6, 2, 0, 0, 0, 1, 2] [] [] = some ⟨1, [1, 2, 258], [1], []⟩ ∧
    check_stream_crc [0, 0, 0, 6, 2, 0, 0, 0] [1, 2, 258] = false :=
  ⟨crc_advisory [0, 0, 0, 6, 2, 0, 0, 0, 1, 2] [] [] [0, 0, 0, 6, 2, 0, 0, 0] [1, 2]
      [1, 2] [] [1, 2, 258] rfl rfl rfl rfl, rfl⟩

/-- Claim C9: against an empty byte source, every `get_stream` call
returns `0` and leaves the caller's data and channel sequences
unchanged, for any number of repeated invocations. -/
theorem idle_idempotent (n : Nat) (d c : List Int) :
    get_stream [] d c = some ⟨0, d, c, []⟩ ∧
    iterate_stream n [] d c = some (List.replicate n 0, d, c, []) := by
  refine ⟨rfl, ?_⟩
  induction n with
  | zero => rfl
  | succ m ih =>
    simp only [iterate_stream, get_stream]
    rw [ih]
    rfl

/-- Claim C1 (amended): feeding `[0x7E, h0,h1,h2,6,2,h5,h6,h7,1,2]`
(no escape bytes, `h2 ≠ 80`) to `get_stream` with empty caller lists
returns `1` and the channel sequence gains exactly `1`; the data
sequence, however, gains the two raw payload bytes `1, 2` *and then*
the decoded sample `258`, because the payload loop buffers into the
caller's data list itself. -/
theorem stream_scenario (h0 h1 h2 h5 h6 h7 : Nat)
    (e0 : h0 ≠ 0x7D) (e1 : h1 ≠ 0x7D) (e2 : h2 ≠ 0x7D) (s2 : h2 ≠ 80)
    (e5 : h5 ≠ 0x7D) (e6 : h6 ≠ 0x7D) (e7 : h7 ≠ 0x7D) :
    get_stream [0x7E, h0, h1, h2, 6, 2, h5, h6, h7, 1, 2] [] [] =
      some ⟨1, [1, 2, 258], [1], []⟩ := by
  have s1 : headerLoop 8 [] [h0, h1, h2, 6, 2, h5, h6, h7, 1, 2] =
      headerLoop 7 [h0] [h1, h2, 6, 2, h5, h6, h7, 1, 2] :=
    headerLoop_read 7 [] _ h0 _ (unescapeRead_cons h0 _ e0) (by simp)
  have s2' : headerLoop 7 [h0] [h1, h2, 6, 2, h5, h6, h7, 1, 2] =
      headerLoop 6 [h0, h1] [h2, 6, 2, h5, h6, h7, 1, 2] :=
    headerLoop_read 6 [h0] _ h1 _ (unescapeRead_cons h1 _ e1) (by simp)
  have s3 : headerLoop 6 [h0, h1] [h2, 6, 2, h5, h6, h7, 1, 2] =
      headerLoop 5 [h0, h1, h2] [6, 2, h5, h6, h7, 1, 2] :=
    headerLoop_read 5 [h0, h1] _ h2 _ (unescapeRead_cons h2 _ e2) (by simp [s2])
  have s4 : headerLoop 5 [h0, h1, h2] [6, 2, h5, h6, h7, 1, 2] =
      headerLoop 4 [h0, h1, h2, 6] [2, h5, h6, h7, 1, 2] :=
    headerLoop_read 4 [h0, h1, h2] _ 6 _ (unescapeRead_cons 6 _ (by decide)) (by simp)
  have s5 : headerLoop 4 [h0, h1, h2, 6] [2, h5, h6, h7, 1, 2] =
      headerLoop 3 [h0, h1, h2, 6, 2] [h5, h6, h7, 1, 2] :=
    headerLoop_read 3 [h0, h1, h2, 6] _ 2 _ (unescapeRead_cons 2 _ (by decide)) (by simp)
  have s6 : headerLoop 3 [h0, h1, h2, 6, 2] [h5, h6, h7, 1, 2] =
      headerLoop 2 [h0, h1, h2, 6, 2, h5] [h6, h7, 1, 2] :=
    headerLoop_read 2 [h0, h1, h2, 6, 2] _ h5 _ (unescapeRead_cons h5 _ e5) (by simp)
  have s7 : headerLoop 2 [h0, h1, h2, 6, 2, h5] [h6, h7, 1, 2] =
      headerLoop 1 [h0, h1, h2, 6, 2, h5, h6] [h7, 1, 2] :=
    headerLoop_read 1 [h0, h1, h2, 6, 2, h5] _ h6 _ (unescapeRead_cons h6 _ e6) (by simp)
  have s8 : headerLoop 1 [h0, h1, h2, 6, 2, h5, h6] [h7, 1, 2] =
      headerLoop 0 [h0, h1, h2, 6, 2, h5, h6, h7] [1, 2] :=
    headerLoop_read 0 [h0, h1, h2, 6, 2, h5, h6] _ h7 _ (unescapeRead_cons h7 _ e7)
      (by simp)
  have s9 : headerLoop 0 [h0, h1, h2, 6, 2, h5, h6, h7] [1, 2] =
      some (HeadStep.full [h0, h1, h2, 6, 2, h5, h6, h7] [1, 2]) := rfl
  rw [get_stream_frame, s1, s2', s3, s4, s5, s6, s7, s8, s9]
  dsimp only
  norm_num
  rfl

/-- Witness for C1's amended theorem. -/
theorem stream_scenario_witness :
    get_stream [0x7E, 1, 1, 2, 6, 2, 0, 0, 0, 1, 2] [] [] =
      some ⟨1, [1, 2, 258], [1], []⟩ :=
  stream_scenario 1 1 2 0 0 0 (by decide) (by decide) (by decide) (by decide)
    (by decide) (by decide) (by decide)

/-- Counterexample to C1 as stated: on the end-to-end scenario the
data sequence gains `[1, 2, 258]` — the raw payload bytes followed by
the sample — not the single element `258`. -/
theorem stream_scenario_cex :
    get_stream [0x7E, 1, 2, 3, 6, 2, 0, 0, 0, 1, 2] [] [] =
      some ⟨1, [1, 2, 258], [1], []⟩ ∧
    ¬(([1, 2, 258] : List Int) = [258]) :=
  ⟨rfl, by decide⟩

/-- Claim C2 (amended): the payload stage of the decoder performs
escape-unstuffed reads only until the caller's `data` list reaches
`dataLength = header[3] - 4` elements: it consumes exactly
`dataLength - data.length` unescaped payload bytes (and none when the
list is already long enough), so the consumption is `header[3] - 4`
only when the caller's list starts empty. -/
theorem payload_length_discipline (dataLength : Nat) (data : List Int) (bs : List Nat) :
    payloadLoop dataLength dataLength data bs =
      match unescapeTake (dataLength - data.length) bs with
      | none => none
      | some (vs, rest) => some (data ++ vs.map (fun m : Nat => (m : Int)), rest) :=
  payloadLoop_take (dataLength - data.length) dataLength dataLength data bs rfl
    (Nat.sub_le _ _)

/-- Counterexample to C2 as stated: a full frame with
`header[3] = 6` (payload length 2) decoded with prior caller data
`[7]` consumes only one payload byte — the trailing byte `55` is left
unread on the wire. -/
theorem payload_prior_data_cex :
    get_stream [0x7E, 1, 2, 3, 6, 2, 0, 0, 0, 99, 55] [7] [] =
      some ⟨1, [7, 99, 1891], [1], [55]⟩ ∧
    ¬(([55] : List Nat) = []) :=
  ⟨rfl, by decide⟩

/-- Claim C4 (amended): `crc` returns the big-endian byte pair of the
byte-value sum when the sum fits in 16 bits, and raises
`struct.error` (no 16-bit wraparound) when the sum is 65536 or
greater. -/
theorem crc_spec (d : List Nat) :
    (d.sum ≤ 65535 →
      crc d = some [d.sum / 256, d.sum % 256] ∧
        256 * (d.sum / 256) + d.sum % 256 = d.sum) ∧
    (65536 ≤ d.sum → crc d = none) := by
  constructor
  · intro h
    exact ⟨crc_eq_some d h, by omega⟩
  · intro h
    have hn : ¬ d.sum ≤ 65535 := by omega
    simp [crc, hn]

set_option maxRecDepth 8000 in
/-- Witness for C4's amended theorem: an in-range payload and an
overflowing payload. -/
theorem crc_spec_witness :
    (crc [1, 2] = some [([1, 2] : List Nat).sum / 256, ([1, 2] : List Nat).sum % 256] ∧
      256 * (([1, 2] : List Nat).sum / 256) + ([1, 2] : List Nat).sum % 256 =
        ([1, 2] : List Nat).sum) ∧
    crc (List.replicate 258 255) = none :=
  ⟨(crc_spec [1, 2]).1 (by decide), (crc_spec (List.replicate 258 255)).2 (by decide)⟩

set_option maxRecDepth 8000 in
/-- Counterexample to C4 as stated: a payload whose byte-value sum is
65790 ≥ 65536 makes `crc` raise `struct.error` (modelled `none`)
instead of succeeding with the wrapped value 254. -/
theorem crc_overflow_cex :
    65536 ≤ (List.replicate 258 255 : List Nat).sum ∧
    (List.replicate 258 255 : List Nat).sum % 65536 = 254 ∧
    crc (List.replicate 258 255) = none :=
  ⟨by decide, by decide, rfl⟩

/-- Claim C8 (amended): `send_command` raises `LengthError` exactly
when the transport yields fewer than `expected_len = 4 + sizeof fmt`
bytes, or when, after a valid checksum, the declared-length byte
*read as a signed byte* differs from `expected_len - 4`.  (The byte is
unpacked with format `b`, so a declared-length byte ≥ 128 never
compares equal.) -/
theorem send_command_lengthError_iff (cmd : List Nat) (ret_fmt : List FieldType)
    (input : List Nat) (hcmd : cmd.sum ≤ 65535) :
    send_command cmd ret_fmt input = Except.error PyError.lengthError ↔
      (input.length < 4 + calcsize ret_fmt ∨
       ∃ payload, check_crc (input.take (4 + calcsize ret_fmt)) = Except.ok payload ∧
         4 + calcsize ret_fmt ≤ input.length ∧
         signedByte (payload.getD 1 0) ≠ (calcsize ret_fmt : Int)) := by
  by_cases hlen : 4 + calcsize ret_fmt ≤ input.length
  · rw [send_command_unfold cmd ret_fmt input hcmd hlen]
    cases hc : check_crc (input.take (4 + calcsize ret_fmt)) with
    | error e =>
      simp only [hc]
      have hne : e ≠ PyError.lengthError := by
        intro h; subst h; exact check_crc_ne_lengthError _ hc
      constructor
      · intro h; injection h with h; exact absurd h hne
      · rintro (h | ⟨p, hp, _, _⟩)
        · omega
        · exact Except.noConfusion hp
    | ok payload =>
      simp only [hc]
      have hpd : payload = (input.take (4 + calcsize ret_fmt)).drop 2 := check_crc_ok_drop hc
      have hplen : payload.length = 2 + calcsize ret_fmt := by
        rw [hpd, List.length_drop, List.length_take]
        omega
      obtain ⟨p0, p1, prest, rfl⟩ : ∃ p0 p1 prest, payload = p0 :: p1 :: prest := by
        cases payload with
        | nil => simp only [List.length_nil] at hplen; omega
        | cons p0 tl =>
          cases tl with
          | nil => simp only [List.length_cons, List.length_nil] at hplen; omega
          | cons p1 prest => exact ⟨p0, p1, prest, rfl⟩
      have hprest : prest.length = calcsize ret_fmt := by
        simp only [List.length_cons] at hplen; omega
      obtain ⟨vs, hvs⟩ := unpackFields_total ret_fmt prest hprest
      rw [unpackFields_bb]
      simp only [hvs]
      simp only [List.getD_cons_succ, List.getD_cons_zero]
      by_cases hsb : signedByte p1 ≠ (calcsize ret_fmt : Int)
      · rw [if_pos hsb]
        constructor
        · intro _
          exact Or.inr ⟨p0 :: p1 :: prest, rfl, hlen, by simpa using hsb⟩
        · intro _; rfl
      · rw [if_neg hsb]
        constructor
        · intro h; exact Except.noConfusion h
        · rintro (h | ⟨p, hp, _, hne⟩)
          · omega
          · injection hp with hp2
            subst hp2
            exact absurd (by simpa using hne) hsb
  · have hlt : input.length < 4 + calcsize ret_fmt := by omega
    rw [send_command_short cmd ret_fmt input hcmd hlt]
    constructor
    · intro _; exact Or.inl hlt
    · intro _; rfl

/-- Witness for C8's amended theorem: an empty response stream is a
short read and yields `LengthError`. -/
theorem send_command_lengthError_iff_witness :
    send_command [39, 0] [FieldType.u8] [] = Except.error PyError.lengthError :=
  (send_command_lengthError_iff [39, 0] [FieldType.u8] [] (by decide)).mpr
    (Or.inl (by decide))

set_option maxRecDepth 8000 in
/-- Counterexample to C8 as stated: with a 128-byte field descriptor,
a response whose checksum verifies and whose declared-length byte
(`resp128[3] = 128`) *equals* `expected_len - 4 = 128` still raises
`LengthError`, a third situation beyond the claim's two, because the
byte is compared after signed reinterpretation (`-128 ≠ 128`). -/
theorem send_command_signed_length_cex :
    check_crc resp128 = Except.ok ([0, 128] ++ List.replicate 128 0) ∧
    2 + 2 + calcsize fmt128 - 4 = 128 ∧
    resp128.getD 3 0 = 128 ∧
    send_command [39, 0] fmt128 resp128 = Except.error PyError.lengthError :=
  ⟨rfl, rfl, rfl, rfl⟩

/-- Claim C10 (amended): `send_command` never compares the
command-echo byte with the sent command id: whenever the checksum
verifies and the declared-length byte, read as a signed byte, equals
`expected_len - 4`, the typed fields are returned even though the echo
byte differs from the sent command id. -/
theorem send_command_ignores_echo (cmd : List Nat) (ret_fmt : List FieldType)
    (input : List Nat) (payload : List Nat)
    (hcmd : cmd.sum ≤ 65535)
    (hlen : 4 + calcsize ret_fmt ≤ input.length)
    (hcrc : check_crc (input.take (4 + calcsize ret_fmt)) = Except.ok payload)
    (hdecl : signedByte (payload.getD 1 0) = (calcsize ret_fmt : Int))
    (_hecho : payload.getD 0 0 ≠ cmd.getD 0 0) :
    ∃ vs, unpackFields ret_fmt (payload.drop 2) = some vs ∧
      send_command cmd ret_fmt input = Except.ok vs := by
  have hpd : payload = (input.take (4 + calcsize ret_fmt)).drop 2 := check_crc_ok_drop hcrc
  have hplen : payload.length = 2 + calcsize ret_fmt := by
    rw [hpd, List.length_drop, List.length_take]
    omega
  obtain ⟨p0, p1, prest, rfl⟩ : ∃ p0 p1 prest, payload = p0 :: p1 :: prest := by
    cases payload with
    | nil => simp only [List.length_nil] at hplen; omega
    | cons p0 tl =>
      cases tl with
      | nil => simp only [List.length_cons, List.length_nil] at hplen; omega
      | cons p1 prest => exact ⟨p0, p1, prest, rfl⟩
  have hprest : prest.length = calcsize ret_fmt := by
    simp only [List.length_cons] at hplen; omega
  obtain ⟨vs, hvs⟩ := unpackFields_total ret_fmt prest hprest
  have hd1 : signedByte p1 = (calcsize ret_fmt : Int) := by simpa using hdecl
  refine ⟨vs, hvs, ?_⟩
  rw [send_command_unfold cmd ret_fmt input hcmd hlen]
  simp only [hcrc]
  rw [unpackFields_bb]
  simp only [hvs]
  simp only [List.getD_cons_succ, List.getD_cons_zero]
  rw [if_neg (by simp [hd1])]
  rfl

/-- Witness for C10's amended theorem: echo byte `99` differs from the
sent command id `18`, yet the field decodes. -/
theorem send_command_ignores_echo_witness :
    ∃ vs, unpackFields [FieldType.u8] (([99, 1, 7] : List Nat).drop 2) = some vs ∧
      send_command [18, 1, 1] [FieldType.u8] [0, 107, 99, 1, 7] = Except.ok vs :=
  send_command_ignores_echo [18, 1, 1] [FieldType.u8] [0, 107, 99, 1, 7] [99, 1, 7]
    (by decide) (by decide) rfl (by decide) (by decide)

set_option maxRecDepth 8000 in
/-- Counterexample to C10 as stated: with a 128-byte descriptor (64
16-bit words), a response whose checksum verifies and whose
declared-length byte equals `expected_len - 4 = 128`, with echo byte
`1 ≠ 39`, is *not* returned successfully: `LengthError` is raised
because the declared-length byte is reinterpreted as the signed value
`-128`. -/
theorem send_command_echo_cex :
    check_crc resp64 = Except.ok ([1, 128] ++ List.replicate 128 0) ∧
    resp64.getD 3 0 = 2 + 2 + calcsize fmt64 - 4 ∧
    ¬(resp64.getD 2 0 = 39) ∧
    send_command [39, 0] fmt64 resp64 = Except.error PyError.lengthError :=
  ⟨rfl, rfl, by decide, rfl⟩
